import Mathlib

/-!
Verification of the libmpack-python MessagePack codec and RPC session layer.

The repository ships property-based tests (hypothesis strategies that build
reference encodings), a compatibility shim, and an RPC state machine test.
The codec itself (the mpack extension module) is exercised through them; we
model it here from the specification and embed the pure helpers
(the reference strategies' response generator, the NaN test-equality class,
and the bfmt fallback) directly from the test sources.

Bytes are lists of naturals (each byte < 256 where it matters); multi-byte
integers are big-endian per the wire format.
-/

namespace Mpack

/-- Big-endian byte list of width w for a natural n (low bytes last). -/
def beBytes : Nat → Nat → List Nat
  | 0, _ => []
  | w+1, n => beBytes w (n / 256) ++ [n % 256]

/-- Big-endian value of a byte list. -/
def beVal (bs : List Nat) : Nat := bs.foldl (fun acc b => acc * 256 + b) 0

theorem beBytes_length (w n : Nat) : (beBytes w n).length = w := by
  induction w generalizing n with
  | zero => rfl
  | succ w ih => simp [beBytes, ih]

theorem beVal_append (xs : List Nat) (b : Nat) :
    beVal (xs ++ [b]) = beVal xs * 256 + b := by
  simp [beVal, List.foldl_append]

theorem beVal_beBytes (w n : Nat) (h : n < 256 ^ w) : beVal (beBytes w n) = n := by
  induction w generalizing n with
  | zero =>
    simp [beBytes, beVal]
    omega
  | succ w ih =>
    have hdiv : n / 256 < 256 ^ w := by
      rw [Nat.div_lt_iff_lt_mul (by norm_num)]
      calc n < 256 ^ (w+1) := h
        _ = 256 ^ w * 256 := by ring
    rw [beBytes, beVal_append, ih _ hdiv]
    omega

/-- Take exactly n bytes off the front of a buffer, or fail. -/
def takeExact : Nat → List Nat → Option (List Nat × List Nat)
  | 0, bs => some ([], bs)
  | _+1, [] => none
  | n+1, b :: bs =>
    match takeExact n bs with
    | some (xs, r) => some (b :: xs, r)
    | none => none

theorem takeExact_append (xs rest : List Nat) :
    takeExact xs.length (xs ++ rest) = some (xs, rest) := by
  induction xs with
  | nil => rfl
  | cons b xs ih => simp [takeExact, ih]

theorem takeExact_append_of_length {n : Nat} (xs rest : List Nat) (h : xs.length = n) :
    takeExact n (xs ++ rest) = some (xs, rest) := by
  subst h; exact takeExact_append xs rest

/-- Read a w-byte big-endian unsigned integer off the front of a buffer. -/
def readBE (w : Nat) (bs : List Nat) : Option (Nat × List Nat) :=
  match takeExact w bs with
  | some (xs, r) => some (beVal xs, r)
  | none => none

theorem readBE_append (w n : Nat) (rest : List Nat) (h : n < 256 ^ w) :
    readBE w (beBytes w n ++ rest) = some (n, rest) := by
  rw [readBE, takeExact_append_of_length _ _ (beBytes_length w n)]
  simp [beVal_beBytes w n h]

/-- A UTF-8 continuation byte: 0x80..0xBF. -/
def isCont (b : Nat) : Bool := 0x80 ≤ b && b ≤ 0xBF

/-- Validity of a byte sequence as UTF-8 (RFC 3629: no overlongs, no
surrogates, no code points above U+10FFFF). -/
def validUtf8 : List Nat → Bool
  | [] => true
  | b :: r =>
    if b ≤ 0x7F then validUtf8 r
    else if 0xC2 ≤ b && b ≤ 0xDF then
      match r with
      | c :: r2 => isCont c && validUtf8 r2
      | [] => false
    else if b = 0xE0 then
      match r with
      | c1 :: c2 :: r2 => (0xA0 ≤ c1 && c1 ≤ 0xBF) && isCont c2 && validUtf8 r2
      | _ => false
    else if (0xE1 ≤ b && b ≤ 0xEC) || b = 0xEE || b = 0xEF then
      match r with
      | c1 :: c2 :: r2 => isCont c1 && isCont c2 && validUtf8 r2
      | _ => false
    else if b = 0xED then
      match r with
      | c1 :: c2 :: r2 => (0x80 ≤ c1 && c1 ≤ 0x9F) && isCont c2 && validUtf8 r2
      | _ => false
    else if b = 0xF0 then
      match r with
      | c1 :: c2 :: c3 :: r2 =>
        (0x90 ≤ c1 && c1 ≤ 0xBF) && isCont c2 && isCont c3 && validUtf8 r2
      | _ => false
    else if 0xF1 ≤ b && b ≤ 0xF3 then
      match r with
      | c1 :: c2 :: c3 :: r2 => isCont c1 && isCont c2 && isCont c3 && validUtf8 r2
      | _ => false
    else if b = 0xF4 then
      match r with
      | c1 :: c2 :: c3 :: r2 =>
        (0x80 ≤ c1 && c1 ≤ 0x8F) && isCont c2 && isCont c3 && validUtf8 r2
      | _ => false
    else false

/-- Modelled from the spec: the Value data model of §3 — the tagged variant of
every encodable value. The codec module itself is not part of the repository
sources (only its tests are), so the model follows the specification text.
`Int`/`UInt` are collapsed into one arbitrary-precision integer constructor:
the wire types are disjoint but the test-equality relation used throughout the
repository's tests is numeric, so separating them would make the documented
round trip fail on shared representations. Floats are carried as their IEEE-754
bit patterns; text is carried as its UTF-8 byte sequence. -/
inductive Value where
  | nil
  | bool (b : Bool)
  | int (n : Int)
  | f32 (bits : Nat)
  | f64 (bits : Nat)
  | bin (bs : List Nat)
  | str (bs : List Nat)
  | arr (vs : List Value)
  | map (ps : List (Value × Value))
  | ext (code : Nat) (data : List Nat)

/-- Modelled from the spec: the extension registry shapes of §4.3 — absent,
a callable pair mapping, or a finite mapping from type code to a
value-constructing callable (the repository's tests also pass an empty list,
kept as a fourth shape). Only the decode direction is modelled, since every
`Value` already has a wire representation and the spec routes no `Value` to
the extension encoder. -/
inductive Registry where
  | absent
  | fn (f : Nat → List Nat → Value)
  | dict (entries : List (Nat × (List Nat → Value)))
  | list (entries : List (Nat × (List Nat → Value)))

/-- Modelled from the spec: decode-side error taxonomy of §4.2. -/
inductive DErr where
  | reservedTag
  | truncated
  | badUtf8
  | unknownExtensionCode
deriving DecidableEq

/-- Modelled from the spec: encode-side failure (oversized payload,
extension code outside [0,127], and similar). -/
inductive EErr where
  | encodeError
deriving DecidableEq

mutual

/-- Modelled from the spec: the canonical encoder of §4.1 — every format
family picks the smallest wire representation that fits (the codec module is
absent from the sources, so the wire table of the spec is the authority).
Partial-function concerns (oversized values) live in `packE`; on values
outside the encodable ranges this raw function simply picks the widest class.
-/
def packRaw : Value → List Nat
  | .nil => [0xC0]
  | .bool false => [0xC2]
  | .bool true => [0xC3]
  | .int n =>
    if 0 ≤ n then
      let m := n.toNat
      if m ≤ 127 then [m]
      else if m ≤ 0xFF then [0xCC, m]
      else if m ≤ 0xFFFF then 0xCD :: beBytes 2 m
      else if m ≤ 0xFFFFFFFF then 0xCE :: beBytes 4 m
      else 0xCF :: beBytes 8 m
    else
      if -32 ≤ n then [(n + 256).toNat]
      else if -128 ≤ n then [0xD0, (n + 256).toNat]
      else if -(2^15) ≤ n then 0xD1 :: beBytes 2 (n + 2^16).toNat
      else if -(2^31) ≤ n then 0xD2 :: beBytes 4 (n + 2^32).toNat
      else 0xD3 :: beBytes 8 (n + 2^64).toNat
  | .f32 bits => 0xCA :: beBytes 4 bits
  | .f64 bits => 0xCB :: beBytes 8 bits
  | .bin bs =>
    if bs.length ≤ 0xFF then 0xC4 :: beBytes 1 bs.length ++ bs
    else if bs.length ≤ 0xFFFF then 0xC5 :: beBytes 2 bs.length ++ bs
    else 0xC6 :: beBytes 4 bs.length ++ bs
  | .str bs =>
    if bs.length ≤ 31 then (0xA0 + bs.length) :: bs
    else if bs.length ≤ 0xFF then 0xD9 :: beBytes 1 bs.length ++ bs
    else if bs.length ≤ 0xFFFF then 0xDA :: beBytes 2 bs.length ++ bs
    else 0xDB :: beBytes 4 bs.length ++ bs
  | .arr vs =>
    if vs.length ≤ 15 then (0x90 + vs.length) :: packList vs
    else if vs.length ≤ 0xFFFF then 0xDC :: beBytes 2 vs.length ++ packList vs
    else 0xDD :: beBytes 4 vs.length ++ packList vs
  | .map ps =>
    if ps.length ≤ 15 then (0x80 + ps.length) :: packPairs ps
    else if ps.length ≤ 0xFFFF then 0xDE :: beBytes 2 ps.length ++ packPairs ps
    else 0xDF :: beBytes 4 ps.length ++ packPairs ps
  | .ext code data =>
    if data.length = 1 then [0xD4, code] ++ data
    else if data.length = 2 then [0xD5, code] ++ data
    else if data.length = 4 then [0xD6, code] ++ data
    else if data.length = 8 then [0xD7, code] ++ data
    else if data.length = 16 then [0xD8, code] ++ data
    else if data.length ≤ 0xFF then 0xC7 :: beBytes 1 data.length ++ code :: data
    else if data.length ≤ 0xFFFF then 0xC8 :: beBytes 2 data.length ++ code :: data
    else 0xC9 :: beBytes 4 data.length ++ code :: data

/-- Concatenated encodings of array elements. -/
def packList : List Value → List Nat
  | [] => []
  | v :: vs => packRaw v ++ packList vs

/-- Concatenated encodings of map pairs, key immediately followed by value. -/
def packPairs : List (Value × Value) → List Nat
  | [] => []
  | (k, v) :: ps => packRaw k ++ packRaw v ++ packPairs ps

end

mutual

/-- Modelled from the spec: legality of a Value for the encoder (§4.1) —
integers within the 64-bit wire classes, float bit patterns within width,
payload lengths at most 2^32−1, text valid UTF-8, bytes in range,
extension codes in [0,127]. -/
def validV : Value → Bool
  | .nil => true
  | .bool _ => true
  | .int n => decide (-(2^63) ≤ n) && decide (n < 2^64)
  | .f32 bits => decide (bits < 2^32)
  | .f64 bits => decide (bits < 2^64)
  | .bin bs => decide (bs.length < 2^32) && bs.all (· < 256)
  | .str bs => decide (bs.length < 2^32) && validUtf8 bs
  | .arr vs => decide (vs.length < 2^32) && validList vs
  | .map ps => decide (ps.length < 2^32) && validPairs ps
  | .ext code data =>
    decide (code ≤ 127) && decide (data.length < 2^32) && data.all (· < 256)

/-- Legality of every element of an array. -/
def validList : List Value → Bool
  | [] => true
  | v :: vs => validV v && validList vs

/-- Legality of every key and value of a map. -/
def validPairs : List (Value × Value) → Bool
  | [] => true
  | (k, v) :: ps => validV k && validV v && validPairs ps

end

mutual

/-- A Value carrying no extension value anywhere. -/
def extFree : Value → Bool
  | .ext _ _ => false
  | .arr vs => extFreeList vs
  | .map ps => extFreePairs ps
  | _ => true

/-- Extension-freeness of every element of an array. -/
def extFreeList : List Value → Bool
  | [] => true
  | v :: vs => extFree v && extFreeList vs

/-- Extension-freeness of every key and value of a map. -/
def extFreePairs : List (Value × Value) → Bool
  | [] => true
  | (k, v) :: ps => extFree k && extFree v && extFreePairs ps

end

/-- Modelled from the spec: the public encoder `encode(Value) -> bytes`
(§4.1, §6) — total on legal Values, failing with an EncodeError otherwise.
It takes the extension registry the Packer was constructed with, but §4.3's
registry is consulted only for application-defined types outside the wire
model; every `Value` is a wire value, so the result never depends on the
registry ("no value is ever routed to extension encoding"). -/
def packE (_reg : Registry) (v : Value) : Except EErr (List Nat) :=
  if validV v then .ok (packRaw v) else .error .encodeError

/-- Two's-complement reading of a w-byte unsigned value as a signed integer. -/
def sgn (w u : Nat) : Int :=
  if u < 2 ^ (8 * w - 1) then (u : Int) else (u : Int) - 2 ^ (8 * w)

/-- Modelled from the spec: extension resolution at decode time (§4.3).
With no registry configured an extension tag yields UnknownExtensionCode;
a callable registry constructs the value from (code, payload). For the
finite-mapping shape, a code absent from the mapping decodes to nil — the
spec leaves this case open and the repository's own test
(test_issue2.test_unpacking_ext_with_dict_ext: unpack of d4 01 01 with an
empty dict registry is (None, 3)) fixes the behaviour. -/
def Registry.resolveExt : Registry → Nat → List Nat → Except DErr Value
  | .absent, _, _ => .error .unknownExtensionCode
  | .fn f, c, d => .ok (f c d)
  | .dict entries, c, d =>
    match entries.lookup c with
    | some g => .ok (g d)
    | none => .ok .nil
  | .list entries, c, d =>
    match entries.lookup c with
    | some g => .ok (g d)
    | none => .ok .nil

/-- Read a length-prefixed binary payload (bin8/16/32 after the header). -/
def readBin (w : Nat) (bs : List Nat) : Except DErr (Value × List Nat) :=
  match readBE w bs with
  | none => .error .truncated
  | some (len, r) =>
    match takeExact len r with
    | none => .error .truncated
    | some (d, r2) => .ok (.bin d, r2)

/-- Read a str payload of known byte length, validating UTF-8. -/
def readStr (len : Nat) (bs : List Nat) : Except DErr (Value × List Nat) :=
  match takeExact len bs with
  | none => .error .truncated
  | some (d, r) => if validUtf8 d then .ok (.str d, r) else .error .badUtf8

/-- Read a length-prefixed str payload (str8/16/32 after the header). -/
def readStrL (w : Nat) (bs : List Nat) : Except DErr (Value × List Nat) :=
  match readBE w bs with
  | none => .error .truncated
  | some (len, r) => readStr len r

/-- Read a w-byte unsigned integer payload (uint8/16/32/64 after the header). -/
def readUint (w : Nat) (bs : List Nat) : Except DErr (Value × List Nat) :=
  match readBE w bs with
  | none => .error .truncated
  | some (u, r) => .ok (.int u, r)

/-- Read a w-byte signed integer payload (int8/16/32/64 after the header). -/
def readSint (w : Nat) (bs : List Nat) : Except DErr (Value × List Nat) :=
  match readBE w bs with
  | none => .error .truncated
  | some (u, r) => .ok (.int (sgn w u), r)

/-- Read a fixext payload: 1-byte type code, then exactly len payload bytes,
then resolve through the registry. -/
def readFixExt (reg : Registry) (len : Nat) (bs : List Nat) :
    Except DErr (Value × List Nat) :=
  match bs with
  | [] => .error .truncated
  | code :: r =>
    match takeExact len r with
    | none => .error .truncated
    | some (d, r2) =>
      match reg.resolveExt code d with
      | .error e => .error e
      | .ok v => .ok (v, r2)

/-- Read an ext8/16/32 payload: w-byte length, then code and payload. -/
def readExtL (reg : Registry) (w : Nat) (bs : List Nat) :
    Except DErr (Value × List Nat) :=
  match readBE w bs with
  | none => .error .truncated
  | some (len, r) => readFixExt reg len r

set_option maxRecDepth 4000

mutual

/-- Modelled from the spec: the decoder of §4.2 — one top-level value off the
front of the buffer, dispatching on the 256-way header byte table, reading
big-endian length fields, recursing into containers, and consulting the
extension registry on ext tags. Header byte 0xC1 is the reserved tag and
fails immediately. The fuel argument bounds container nesting depth only
(each level consumes at least one header byte, so the public entry point
`unpack` supplies the buffer length plus one). -/
def unpackV (reg : Registry) : Nat → List Nat → Except DErr (Value × List Nat)
  | 0, _ => .error .truncated
  | _+1, [] => .error .truncated
  | fuel+1, b :: rest =>
    if b ≤ 0x7F then .ok (.int b, rest)
    else if b ≤ 0x8F then
      match unpackP reg fuel (b - 0x80) rest with
      | .error e => .error e
      | .ok (ps, r) => .ok (.map ps, r)
    else if b ≤ 0x9F then
      match unpackN reg fuel (b - 0x90) rest with
      | .error e => .error e
      | .ok (vs, r) => .ok (.arr vs, r)
    else if b ≤ 0xBF then readStr (b - 0xA0) rest
    else if b = 0xC0 then .ok (.nil, rest)
    else if b = 0xC1 then .error .reservedTag
    else if b = 0xC2 then .ok (.bool false, rest)
    else if b = 0xC3 then .ok (.bool true, rest)
    else if b = 0xC4 then readBin 1 rest
    else if b = 0xC5 then readBin 2 rest
    else if b = 0xC6 then readBin 4 rest
    else if b = 0xC7 then readExtL reg 1 rest
    else if b = 0xC8 then readExtL reg 2 rest
    else if b = 0xC9 then readExtL reg 4 rest
    else if b = 0xCA then
      match readBE 4 rest with
      | none => .error .truncated
      | some (u, r) => .ok (.f32 u, r)
    else if b = 0xCB then
      match readBE 8 rest with
      | none => .error .truncated
      | some (u, r) => .ok (.f64 u, r)
    else if b = 0xCC then readUint 1 rest
    else if b = 0xCD then readUint 2 rest
    else if b = 0xCE then readUint 4 rest
    else if b = 0xCF then readUint 8 rest
    else if b = 0xD0 then readSint 1 rest
    else if b = 0xD1 then readSint 2 rest
    else if b = 0xD2 then readSint 4 rest
    else if b = 0xD3 then readSint 8 rest
    else if b = 0xD4 then readFixExt reg 1 rest
    else if b = 0xD5 then readFixExt reg 2 rest
    else if b = 0xD6 then readFixExt reg 4 rest
    else if b = 0xD7 then readFixExt reg 8 rest
    else if b = 0xD8 then readFixExt reg 16 rest
    else if b = 0xD9 then readStrL 1 rest
    else if b = 0xDA then readStrL 2 rest
    else if b = 0xDB then readStrL 4 rest
    else if b = 0xDC then
      match readBE 2 rest with
      | none => .error .truncated
      | some (n, r) =>
        match unpackN reg fuel n r with
        | .error e => .error e
        | .ok (vs, r2) => .ok (.arr vs, r2)
    else if b = 0xDD then
      match readBE 4 rest with
      | none => .error .truncated
      | some (n, r) =>
        match unpackN reg fuel n r with
        | .error e => .error e
        | .ok (vs, r2) => .ok (.arr vs, r2)
    else if b = 0xDE then
      match readBE 2 rest with
      | none => .error .truncated
      | some (n, r) =>
        match unpackP reg fuel n r with
        | .error e => .error e
        | .ok (ps, r2) => .ok (.map ps, r2)
    else if b = 0xDF then
      match readBE 4 rest with
      | none => .error .truncated
      | some (n, r) =>
        match unpackP reg fuel n r with
        | .error e => .error e
        | .ok (ps, r2) => .ok (.map ps, r2)
    else if b ≤ 0xFF then .ok (.int ((b : Int) - 256), rest)
    else .error .reservedTag
termination_by fuel _ => (fuel, 0)

/-- Decode exactly n consecutive values (array contents). -/
def unpackN (reg : Registry) : Nat → Nat → List Nat → Except DErr (List Value × List Nat)
  | _, 0, bs => .ok ([], bs)
  | fuel, n+1, bs =>
    match unpackV reg fuel bs with
    | .error e => .error e
    | .ok (v, r) =>
      match unpackN reg fuel n r with
      | .error e => .error e
      | .ok (vs, r2) => .ok (v :: vs, r2)
termination_by fuel n _ => (fuel, n + 1)

/-- Decode exactly n consecutive key/value pairs (map contents). -/
def unpackP (reg : Registry) : Nat → Nat → List Nat → Except DErr (List (Value × Value) × List Nat)
  | _, 0, bs => .ok ([], bs)
  | fuel, n+1, bs =>
    match unpackV reg fuel bs with
    | .error e => .error e
    | .ok (k, r) =>
      match unpackV reg fuel r with
      | .error e => .error e
      | .ok (v, r2) =>
        match unpackP reg fuel n r2 with
        | .error e => .error e
        | .ok (ps, r3) => .ok ((k, v) :: ps, r3)
termination_by fuel n _ => (fuel, n + 1)

end

/-- Modelled from the spec: the public decoder `decode(bytes) -> (Value,
bytesConsumed)` (§4.2, §6) — one top-level value from offset 0 together with
the number of bytes consumed, or a DecodeError. -/
def unpack (reg : Registry) (bs : List Nat) : Except DErr (Value × Nat) :=
  match unpackV reg (bs.length + 1) bs with
  | .error e => .error e
  | .ok (v, rest) => .ok (v, bs.length - rest.length)

/-- Whether a Value is a text string (schema check for method fields). -/
def Value.isStr : Value → Bool
  | .str _ => true
  | _ => false

/-- Whether a Value is an array (schema check for params fields). -/
def Value.isArr : Value → Bool
  | .arr _ => true
  | _ => false

/-- Modelled from the spec: session-layer errors (§4.4, §7). -/
inductive RErr where
  | decodeFailed (e : DErr)
  | protocolError
  | unknownResponseId
deriving DecidableEq

/-- Modelled from the spec: the RPC correlation state machine of §4.4 — a
pending map from in-flight id to the application-supplied opaque datum, and
the wrapping id counter. The opaque datum type is a parameter. -/
structure Session (δ : Type) where
  pending : List (Nat × δ)
  nextId : Nat

/-- Candidate search for a fresh id: walk the counter forward modulo 2^32,
skipping ids still pending. Fuel (one more than the pending count) bounds the
walk; by pigeonhole it always finds a free id below 2^32 concurrent requests.
-/
def freshIdAux (pending : List (Nat × δ)) : Nat → Nat → Nat
  | 0, c => c % 2 ^ 32
  | f+1, c =>
    if (pending.lookup (c % 2 ^ 32)).isSome then freshIdAux pending f (c + 1)
    else c % 2 ^ 32

/-- The next request id: the counter value, skipping pending ids. -/
def Session.freshId (s : Session δ) : Nat :=
  freshIdAux s.pending (s.pending.length + 1) s.nextId

/-- Modelled from the spec: `request(method, params, data) -> bytes` (§4.4) —
allocates a fresh id, records the pending request, and encodes the
4-element Request array (0, id, method, params). -/
def Session.request (s : Session δ) (method params : Value) (data : δ) :
    List Nat × Session δ :=
  let id := s.freshId
  (packRaw (.arr [.int 0, .int id, method, params]),
   { pending := (id, data) :: s.pending, nextId := (id + 1) % 2 ^ 32 })

/-- Modelled from the spec: `notify(method, params) -> bytes` (§4.4) — a pure
encode of the 3-element Notification array; no state change. -/
def Session.notify (_s : Session δ) (method params : Value) : List Nat :=
  packRaw (.arr [.int 2, method, params])

/-- Modelled from the spec: `reply(id, errorOrResult, isError) -> bytes`
(§4.4) — a pure encode of the 4-element Response array with the payload in
the error or result slot and nil in the other; the pending map is untouched.
-/
def Session.reply (_s : Session δ) (id : Nat) (payload : Value) (isError : Bool) :
    List Nat :=
  packRaw (.arr [.int 1, .int id,
                 if isError then payload else .nil,
                 if isError then .nil else payload])

/-- A message delivered by `Session.receive`. -/
inductive RcvMsg (δ : Type) where
  | request (method params : Value) (id : Nat)
  | response (error result : Value) (data : δ)
  | notification (method params : Value)

/-- Modelled from the spec: `receive(bytes)` (§4.4) — decode one message,
validate its shape against the Request/Response/Notification schema, and for
a Response look the id up in the pending map, failing with UnknownResponseId
when absent and removing the entry when present. Returns the bytes consumed,
the classified message, and the updated session. -/
def Session.receive (s : Session δ) (bs : List Nat) :
    Except RErr ((Nat × RcvMsg δ) × Session δ) :=
  match unpack .absent bs with
  | .error e => .error (.decodeFailed e)
  | .ok (v, consumed) =>
    match v with
    | .arr [.int t, .int id, a, b] =>
      if t = 0 then
        if 0 ≤ id ∧ id < 2 ^ 32 ∧ a.isStr ∧ b.isArr then
          .ok ((consumed, .request a b id.toNat), s)
        else .error .protocolError
      else if t = 1 then
        if 0 ≤ id ∧ id < 2 ^ 32 then
          match s.pending.lookup id.toNat with
          | none => .error .unknownResponseId
          | some d =>
            .ok ((consumed, .response a b d),
                 { s with pending := s.pending.eraseP (fun e => e.1 == id.toNat) })
        else .error .protocolError
      else .error .protocolError
    | .arr [.int 2, m, p] =>
      if m.isStr ∧ p.isArr then .ok ((consumed, .notification m p), s)
      else .error .protocolError
    | _ => .error .protocolError

/-! Embeddings taken directly from the repository's test sources. -/

/-- Embedded from src/strategies.py `msg` (lines 470-484): the contents of a
generated Response message. The strategy draws a boolean `has_error`; with an
error the tail is (msg_id, errors, nil()), otherwise (msg_id, nil(),
results), prefixed by the packed message-type fixnum 1. `err` and `res`
stand for the drawn `errors`/`results` values, which range over the whole
`everything()` strategy — including nil. -/
def msgResponseContents (hasError : Bool) (msgid err res : Value) : List Value :=
  if hasError then [Value.int 1, msgid, err, Value.nil]
  else [Value.int 1, msgid, Value.nil, res]

/-- IEEE-754 single-precision NaN-ness of a 32-bit pattern: exponent bits all
ones and a non-zero mantissa. -/
def isNaN32 (b : Nat) : Bool := (b / 2 ^ 23) % 2 ^ 8 == 0xFF && b % 2 ^ 23 != 0

/-- IEEE-754 double-precision NaN-ness of a 64-bit pattern: exponent bits all
ones and a non-zero mantissa. -/
def isNaN64 (b : Nat) : Bool := (b / 2 ^ 52) % 2 ^ 11 == 0x7FF && b % 2 ^ 52 != 0

/-- An operand handed to the `_Nan` sentinel's comparison methods: a float of
either width, given by its bit pattern, or a value of any non-float numpy
dtype kind. -/
inductive NanOperand where
  | f32 (bits : Nat)
  | f64 (bits : Nat)
  | nonFloat

/-- Embedded from src/strategies.py `_Nan.__eq__` (lines 86-89): against an
operand whose dtype kind is not a float the comparison is NotImplemented
(none); against a float it is `numpy.isnan(other)`. -/
def nanEq : NanOperand → Option Bool
  | .f32 b => some (isNaN32 b)
  | .f64 b => some (isNaN64 b)
  | .nonFloat => none

/-- Embedded from src/strategies.py `_Nan.__ne__` (lines 91-94): the
negation, again NotImplemented off the float kinds. -/
def nanNe : NanOperand → Option Bool
  | .f32 b => some (!isNaN32 b)
  | .f64 b => some (!isNaN64 b)
  | .nonFloat => none

/-- An argument consumed by a bfmt directive: an integer byte for a %c
directive, or a byte string for a %s directive. -/
inductive BArg where
  | c (b : Nat)
  | s (bs : List Nat)

/-- Pull an integer %c argument off the argument list, if the next argument
is one. -/
def asC : List BArg → Option (Nat × List BArg)
  | .c b :: args2 => some (b, args2)
  | _ => none

/-- Pull a byte-string %s argument off the argument list, if the next
argument is one. -/
def asS : List BArg → Option (List Nat × List BArg)
  | .s bs :: args2 => some (bs, args2)
  | _ => none

/-- Embedded from src/tests/compat.py `bfmt` (the Python ≥ 3.5 / < 3 branch):
native bytes interpolation `B % args` restricted to the %c and %s
directives. %c takes an integer in range(256); %s a byte string; a
directive without a matching argument, a mismatched argument, a stray or
trailing '%', or leftover arguments raise (none). -/
def bfmtNative : List Nat → List BArg → Option (List Nat)
  | [], args => if args.isEmpty then some [] else none
  | [x], args =>
    if x = 37 then none
    else (bfmtNative [] args).map (fun t => x :: t)
  | x :: spec :: rest2, args =>
    if x = 37 then
      if spec = 99 then
        match asC args with
        | some (b, args2) =>
          if b < 256 then (bfmtNative rest2 args2).map (fun t => b :: t) else none
        | none => none
      else if spec = 115 then
        match asS args with
        | some (bs, args2) => (bfmtNative rest2 args2).map (fun t => bs ++ t)
        | none => none
      else none
    else (bfmtNative (spec :: rest2) args).map (fun t => x :: t)

/-- Embedded from src/tests/compat.py `bfmt` (the manual 3.0-3.4 fallback,
lines 23-36): scan for '%', copy literal bytes, append one byte from the
argument iterator for a %c spec and a byte string for a %s spec; any other
spec fails the assert, an exhausted iterator raises StopIteration, a
mismatched argument raises TypeError, a trailing lone '%' raises IndexError
(all none here). Bytes remaining after the last directive are copied and
surplus arguments are silently ignored. -/
def bfmtManual : List Nat → List BArg → Option (List Nat)
  | [], _ => some []
  | [x], args =>
    if x = 37 then none
    else (bfmtManual [] args).map (fun t => x :: t)
  | x :: spec :: rest2, args =>
    if x = 37 then
      if spec = 99 then
        match asC args with
        | some (b, args2) =>
          if b < 256 then (bfmtManual rest2 args2).map (fun t => b :: t) else none
        | none => none
      else if spec = 115 then
        match asS args with
        | some (bs, args2) => (bfmtManual rest2 args2).map (fun t => bs ++ t)
        | none => none
      else none
    else (bfmtManual (spec :: rest2) args).map (fun t => x :: t)

/-- A format string whose directives are only %c and %s, matched
positionally by a list of arguments of the corresponding kinds, with %c
arguments in byte range. Literal bytes other than '%' pass through. -/
inductive BFmtMatch : List Nat → List BArg → Prop where
  | nil : BFmtMatch [] []
  | c {rest args b} : b < 256 → BFmtMatch rest args →
      BFmtMatch (37 :: 99 :: rest) (.c b :: args)
  | s {rest args bs} : BFmtMatch rest args →
      BFmtMatch (37 :: 115 :: rest) (.s bs :: args)
  | lit {rest args x} : x ≠ 37 → BFmtMatch rest args →
      BFmtMatch (x :: rest) args

/-! Supporting lemmas for the round-trip proof. -/

theorem packRaw_length_pos (v : Value) : 1 ≤ (packRaw v).length := by
  cases v with
  | nil => simp [packRaw]
  | bool b => cases b <;> simp [packRaw]
  | int n => simp only [packRaw]; split_ifs <;> simp
  | f32 bits => simp [packRaw]
  | f64 bits => simp [packRaw]
  | bin bs => simp only [packRaw]; split_ifs <;> simp
  | str bs => simp only [packRaw]; split_ifs <;> simp
  | arr vs => simp only [packRaw]; split_ifs <;> simp
  | map ps => simp only [packRaw]; split_ifs <;> simp
  | ext c d => simp only [packRaw]; split_ifs <;> simp

theorem unpackV_posfix (reg : Registry) (fuel b : Nat) (rest : List Nat)
    (h : b ≤ 0x7F) :
    unpackV reg (fuel + 1) (b :: rest) = .ok (.int b, rest) := by
  rw [unpackV.eq_3, if_pos (show b ≤ 127 by omega)]

theorem unpackV_negfix (reg : Registry) (fuel b : Nat) (rest : List Nat)
    (h1 : 0xE0 ≤ b) (h2 : b ≤ 0xFF) :
    unpackV reg (fuel + 1) (b :: rest) = .ok (.int ((b : Int) - 256), rest) := by
  rw [unpackV.eq_3, if_neg (show ¬(b ≤ 127) by omega),
      if_neg (show ¬(b ≤ 143) by omega),
      if_neg (show ¬(b ≤ 159) by omega),
      if_neg (show ¬(b ≤ 191) by omega),
      if_neg (show ¬(b = 192) by omega),
      if_neg (show ¬(b = 193) by omega),
      if_neg (show ¬(b = 194) by omega),
      if_neg (show ¬(b = 195) by omega),
      if_neg (show ¬(b = 196) by omega),
      if_neg (show ¬(b = 197) by omega),
      if_neg (show ¬(b = 198) by omega),
      if_neg (show ¬(b = 199) by omega),
      if_neg (show ¬(b = 200) by omega),
      if_neg (show ¬(b = 201) by omega),
      if_neg (show ¬(b = 202) by omega),
      if_neg (show ¬(b = 203) by omega),
      if_neg (show ¬(b = 204) by omega),
      if_neg (show ¬(b = 205) by omega),
      if_neg (show ¬(b = 206) by omega),
      if_neg (show ¬(b = 207) by omega),
      if_neg (show ¬(b = 208) by omega),
      if_neg (show ¬(b = 209) by omega),
      if_neg (show ¬(b = 210) by omega),
      if_neg (show ¬(b = 211) by omega),
      if_neg (show ¬(b = 212) by omega),
      if_neg (show ¬(b = 213) by omega),
      if_neg (show ¬(b = 214) by omega),
      if_neg (show ¬(b = 215) by omega),
      if_neg (show ¬(b = 216) by omega),
      if_neg (show ¬(b = 217) by omega),
      if_neg (show ¬(b = 218) by omega),
      if_neg (show ¬(b = 219) by omega),
      if_neg (show ¬(b = 220) by omega),
      if_neg (show ¬(b = 221) by omega),
      if_neg (show ¬(b = 222) by omega),
      if_neg (show ¬(b = 223) by omega),
      if_pos (show b ≤ 255 by omega)]

theorem unpackV_fixstr (reg : Registry) (fuel b : Nat) (rest : List Nat)
    (h1 : 0xA0 ≤ b) (h2 : b ≤ 0xBF) :
    unpackV reg (fuel + 1) (b :: rest) = readStr (b - 0xA0) rest := by
  rw [unpackV.eq_3, if_neg (show ¬(b ≤ 127) by omega),
      if_neg (show ¬(b ≤ 143) by omega),
      if_neg (show ¬(b ≤ 159) by omega),
      if_pos (show b ≤ 191 by omega)]

theorem unpackV_fixarr (reg : Registry) (fuel b : Nat) (rest : List Nat)
    (h1 : 0x90 ≤ b) (h2 : b ≤ 0x9F) :
    unpackV reg (fuel + 1) (b :: rest) =
      match unpackN reg fuel (b - 0x90) rest with
      | .error e => .error e
      | .ok (vs, r) => .ok (.arr vs, r) := by
  rw [unpackV.eq_3, if_neg (show ¬(b ≤ 127) by omega),
      if_neg (show ¬(b ≤ 143) by omega),
      if_pos (show b ≤ 159 by omega)]

theorem unpackV_fixmap (reg : Registry) (fuel b : Nat) (rest : List Nat)
    (h1 : 0x80 ≤ b) (h2 : b ≤ 0x8F) :
    unpackV reg (fuel + 1) (b :: rest) =
      match unpackP reg fuel (b - 0x80) rest with
      | .error e => .error e
      | .ok (ps, r) => .ok (.map ps, r) := by
  rw [unpackV.eq_3, if_neg (show ¬(b ≤ 127) by omega),
      if_pos (show b ≤ 143 by omega)]

theorem unpackV_nilHdr (reg : Registry) (fuel : Nat) (rest : List Nat) :
    unpackV reg (fuel + 1) (0xC0 :: rest) = .ok (.nil, rest) := by
  rw [unpackV.eq_3]; norm_num

theorem unpackV_falseHdr (reg : Registry) (fuel : Nat) (rest : List Nat) :
    unpackV reg (fuel + 1) (0xC2 :: rest) = .ok (.bool false, rest) := by
  rw [unpackV.eq_3]; norm_num

theorem unpackV_trueHdr (reg : Registry) (fuel : Nat) (rest : List Nat) :
    unpackV reg (fuel + 1) (0xC3 :: rest) = .ok (.bool true, rest) := by
  rw [unpackV.eq_3]; norm_num

theorem unpackV_bin8Hdr (reg : Registry) (fuel : Nat) (rest : List Nat) :
    unpackV reg (fuel + 1) (0xC4 :: rest) = readBin 1 rest := by
  rw [unpackV.eq_3]; norm_num

theorem unpackV_bin16Hdr (reg : Registry) (fuel : Nat) (rest : List Nat) :
    unpackV reg (fuel + 1) (0xC5 :: rest) = readBin 2 rest := by
  rw [unpackV.eq_3]; norm_num

theorem unpackV_bin32Hdr (reg : Registry) (fuel : Nat) (rest : List Nat) :
    unpackV reg (fuel + 1) (0xC6 :: rest) = readBin 4 rest := by
  rw [unpackV.eq_3]; norm_num

theorem unpackV_ext8Hdr (reg : Registry) (fuel : Nat) (rest : List Nat) :
    unpackV reg (fuel + 1) (0xC7 :: rest) = readExtL reg 1 rest := by
  rw [unpackV.eq_3]; norm_num

theorem unpackV_ext16Hdr (reg : Registry) (fuel : Nat) (rest : List Nat) :
    unpackV reg (fuel + 1) (0xC8 :: rest) = readExtL reg 2 rest := by
  rw [unpackV.eq_3]; norm_num

theorem unpackV_ext32Hdr (reg : Registry) (fuel : Nat) (rest : List Nat) :
    unpackV reg (fuel + 1) (0xC9 :: rest) = readExtL reg 4 rest := by
  rw [unpackV.eq_3]; norm_num

theorem unpackV_f32Hdr (reg : Registry) (fuel : Nat) (rest : List Nat) :
    unpackV reg (fuel + 1) (0xCA :: rest) = (match readBE 4 rest with
      | none => .error .truncated
      | some (u, r) => .ok (.f32 u, r)) := by
  rw [unpackV.eq_3]; norm_num

theorem unpackV_f64Hdr (reg : Registry) (fuel : Nat) (rest : List Nat) :
    unpackV reg (fuel + 1) (0xCB :: rest) = (match readBE 8 rest with
      | none => .error .truncated
      | some (u, r) => .ok (.f64 u, r)) := by
  rw [unpackV.eq_3]; norm_num

theorem unpackV_uint8Hdr (reg : Registry) (fuel : Nat) (rest : List Nat) :
    unpackV reg (fuel + 1) (0xCC :: rest) = readUint 1 rest := by
  rw [unpackV.eq_3]; norm_num

theorem unpackV_uint16Hdr (reg : Registry) (fuel : Nat) (rest : List Nat) :
    unpackV reg (fuel + 1) (0xCD :: rest) = readUint 2 rest := by
  rw [unpackV.eq_3]; norm_num

theorem unpackV_uint32Hdr (reg : Registry) (fuel : Nat) (rest : List Nat) :
    unpackV reg (fuel + 1) (0xCE :: rest) = readUint 4 rest := by
  rw [unpackV.eq_3]; norm_num

theorem unpackV_uint64Hdr (reg : Registry) (fuel : Nat) (rest : List Nat) :
    unpackV reg (fuel + 1) (0xCF :: rest) = readUint 8 rest := by
  rw [unpackV.eq_3]; norm_num

theorem unpackV_int8Hdr (reg : Registry) (fuel : Nat) (rest : List Nat) :
    unpackV reg (fuel + 1) (0xD0 :: rest) = readSint 1 rest := by
  rw [unpackV.eq_3]; norm_num

theorem unpackV_int16Hdr (reg : Registry) (fuel : Nat) (rest : List Nat) :
    unpackV reg (fuel + 1) (0xD1 :: rest) = readSint 2 rest := by
  rw [unpackV.eq_3]; norm_num

theorem unpackV_int32Hdr (reg : Registry) (fuel : Nat) (rest : List Nat) :
    unpackV reg (fuel + 1) (0xD2 :: rest) = readSint 4 rest := by
  rw [unpackV.eq_3]; norm_num

theorem unpackV_int64Hdr (reg : Registry) (fuel : Nat) (rest : List Nat) :
    unpackV reg (fuel + 1) (0xD3 :: rest) = readSint 8 rest := by
  rw [unpackV.eq_3]; norm_num

theorem unpackV_fixext1Hdr (reg : Registry) (fuel : Nat) (rest : List Nat) :
    unpackV reg (fuel + 1) (0xD4 :: rest) = readFixExt reg 1 rest := by
  rw [unpackV.eq_3]; norm_num

theorem unpackV_fixext2Hdr (reg : Registry) (fuel : Nat) (rest : List Nat) :
    unpackV reg (fuel + 1) (0xD5 :: rest) = readFixExt reg 2 rest := by
  rw [unpackV.eq_3]; norm_num

theorem unpackV_fixext4Hdr (reg : Registry) (fuel : Nat) (rest : List Nat) :
    unpackV reg (fuel + 1) (0xD6 :: rest) = readFixExt reg 4 rest := by
  rw [unpackV.eq_3]; norm_num

theorem unpackV_fixext8Hdr (reg : Registry) (fuel : Nat) (rest : List Nat) :
    unpackV reg (fuel + 1) (0xD7 :: rest) = readFixExt reg 8 rest := by
  rw [unpackV.eq_3]; norm_num

theorem unpackV_fixext16Hdr (reg : Registry) (fuel : Nat) (rest : List Nat) :
    unpackV reg (fuel + 1) (0xD8 :: rest) = readFixExt reg 16 rest := by
  rw [unpackV.eq_3]; norm_num

theorem unpackV_str8Hdr (reg : Registry) (fuel : Nat) (rest : List Nat) :
    unpackV reg (fuel + 1) (0xD9 :: rest) = readStrL 1 rest := by
  rw [unpackV.eq_3]; norm_num

theorem unpackV_str16Hdr (reg : Registry) (fuel : Nat) (rest : List Nat) :
    unpackV reg (fuel + 1) (0xDA :: rest) = readStrL 2 rest := by
  rw [unpackV.eq_3]; norm_num

theorem unpackV_str32Hdr (reg : Registry) (fuel : Nat) (rest : List Nat) :
    unpackV reg (fuel + 1) (0xDB :: rest) = readStrL 4 rest := by
  rw [unpackV.eq_3]; norm_num

theorem unpackV_arr16Hdr (reg : Registry) (fuel : Nat) (rest : List Nat) :
    unpackV reg (fuel + 1) (0xDC :: rest) = (match readBE 2 rest with
      | none => .error .truncated
      | some (n, r) =>
        match unpackN reg fuel n r with
        | .error e => .error e
        | .ok (vs, r2) => .ok (.arr vs, r2)) := by
  rw [unpackV.eq_3]; norm_num

theorem unpackV_arr32Hdr (reg : Registry) (fuel : Nat) (rest : List Nat) :
    unpackV reg (fuel + 1) (0xDD :: rest) = (match readBE 4 rest with
      | none => .error .truncated
      | some (n, r) =>
        match unpackN reg fuel n r with
        | .error e => .error e
        | .ok (vs, r2) => .ok (.arr vs, r2)) := by
  rw [unpackV.eq_3]; norm_num

theorem unpackV_map16Hdr (reg : Registry) (fuel : Nat) (rest : List Nat) :
    unpackV reg (fuel + 1) (0xDE :: rest) = (match readBE 2 rest with
      | none => .error .truncated
      | some (n, r) =>
        match unpackP reg fuel n r with
        | .error e => .error e
        | .ok (ps, r2) => .ok (.map ps, r2)) := by
  rw [unpackV.eq_3]; norm_num

theorem unpackV_map32Hdr (reg : Registry) (fuel : Nat) (rest : List Nat) :
    unpackV reg (fuel + 1) (0xDF :: rest) = (match readBE 4 rest with
      | none => .error .truncated
      | some (n, r) =>
        match unpackP reg fuel n r with
        | .error e => .error e
        | .ok (ps, r2) => .ok (.map ps, r2)) := by
  rw [unpackV.eq_3]; norm_num

theorem unpackV_reservedHdr (reg : Registry) (fuel : Nat) (rest : List Nat) :
    unpackV reg (fuel + 1) (0xC1 :: rest) = .error .reservedTag := by
  rw [unpackV.eq_3]; norm_num

theorem beVal_singleton (b : Nat) : beVal [b] = b := by simp [beVal]

theorem takeExact_one (b : Nat) (rest : List Nat) :
    takeExact 1 (b :: rest) = some ([b], rest) := rfl

theorem readUint_bytes (w u : Nat) (extra : List Nat) (h : u < 256 ^ w) :
    readUint w (beBytes w u ++ extra) = .ok (.int u, extra) := by
  simp only [readUint, readBE_append w u extra h]

theorem readSint_bytes (w u : Nat) (extra : List Nat) (h : u < 256 ^ w) :
    readSint w (beBytes w u ++ extra) = .ok (.int (sgn w u), extra) := by
  simp only [readSint, readBE_append w u extra h]

theorem readStr_bytes (bs extra : List Nat) (h : validUtf8 bs = true) :
    readStr bs.length (bs ++ extra) = .ok (.str bs, extra) := by
  simp only [readStr, takeExact_append, h, if_true]

theorem readBin_bytes (w : Nat) (bs extra : List Nat) (h : bs.length < 256 ^ w) :
    readBin w (beBytes w bs.length ++ (bs ++ extra)) = .ok (.bin bs, extra) := by
  simp only [readBin, readBE_append _ _ _ h, takeExact_append]

theorem readStrL_bytes (w : Nat) (bs extra : List Nat) (h : bs.length < 256 ^ w)
    (hu : validUtf8 bs = true) :
    readStrL w (beBytes w bs.length ++ (bs ++ extra)) = .ok (.str bs, extra) := by
  simp only [readStrL, readBE_append _ _ _ h, readStr_bytes bs extra hu]

set_option maxHeartbeats 1000000 in
theorem unpackV_packRaw (reg : Registry) :
    ∀ fuel (v : Value), validV v = true → extFree v = true →
      (packRaw v).length ≤ fuel →
      ∀ extra, unpackV reg fuel (packRaw v ++ extra) = .ok (v, extra) := by
  intro fuel
  induction fuel with
  | zero =>
    intro v _ _ hlen extra
    exact absurd hlen (by have := packRaw_length_pos v; omega)
  | succ fuel ih =>
    have ihN : ∀ vs : List Value, validList vs = true → extFreeList vs = true →
        (packList vs).length ≤ fuel →
        ∀ extra, unpackN reg fuel vs.length (packList vs ++ extra) = .ok (vs, extra) := by
      intro vs
      induction vs with
      | nil => intro _ _ _ extra; simp [packList, unpackN]
      | cons v vs ihvs =>
        intro hv hf hlen extra
        simp only [validList, Bool.and_eq_true] at hv
        simp only [extFreeList, Bool.and_eq_true] at hf
        simp only [packList, List.length_append] at hlen
        have hl1 : (packRaw v).length ≤ fuel := by omega
        have hl2 : (packList vs).length ≤ fuel := by omega
        simp only [packList, List.length_cons, List.append_assoc, unpackN,
                   ih v hv.1 hf.1 hl1, ihvs hv.2 hf.2 hl2]
    have ihP : ∀ ps : List (Value × Value), validPairs ps = true → extFreePairs ps = true →
        (packPairs ps).length ≤ fuel →
        ∀ extra, unpackP reg fuel ps.length (packPairs ps ++ extra) = .ok (ps, extra) := by
      intro ps
      induction ps with
      | nil => intro _ _ _ extra; simp [packPairs, unpackP]
      | cons p ps ihps =>
        obtain ⟨k, v⟩ := p
        intro hv hf hlen extra
        simp only [validPairs, Bool.and_eq_true] at hv
        simp only [extFreePairs, Bool.and_eq_true] at hf
        simp only [packPairs, List.length_append] at hlen
        have hk : (packRaw k).length ≤ fuel := by omega
        have hv2 : (packRaw v).length ≤ fuel := by omega
        have hps : (packPairs ps).length ≤ fuel := by omega
        simp only [packPairs, List.length_cons, List.append_assoc, unpackP,
                   ih k hv.1.1 hf.1.1 hk, ih v hv.1.2 hf.1.2 hv2, ihps hv.2 hf.2 hps]
    intro v hv hf hlen extra
    cases v with
    | nil =>
      simp only [packRaw, List.cons_append, List.nil_append]
      rw [unpackV_nilHdr]
    | bool b =>
      cases b with
      | false =>
        simp only [packRaw, List.cons_append, List.nil_append]
        rw [unpackV_falseHdr]
      | true =>
        simp only [packRaw, List.cons_append, List.nil_append]
        rw [unpackV_trueHdr]
    | int n =>
      simp only [validV, Bool.and_eq_true, decide_eq_true_eq] at hv
      obtain ⟨hlo, hhi⟩ := hv
      by_cases h0 : 0 ≤ n
      · simp only [packRaw, if_pos h0]
        by_cases h1 : n.toNat ≤ 127
        · rw [if_pos h1]
          simp only [List.cons_append, List.nil_append]
          rw [unpackV_posfix reg fuel _ _ h1, Int.toNat_of_nonneg h0]
        · by_cases h2 : n.toNat ≤ 0xFF
          · rw [if_neg h1, if_pos h2]
            simp only [List.cons_append, List.nil_append]
            rw [unpackV_uint8Hdr]
            simp only [readUint, readBE, takeExact_one, beVal_singleton,
                       Int.toNat_of_nonneg h0]
          · by_cases h3 : n.toNat ≤ 0xFFFF
            · rw [if_neg h1, if_neg h2, if_pos h3]
              simp only [List.cons_append]
              rw [unpackV_uint16Hdr,
                  readUint_bytes 2 _ _ (by norm_num; omega),
                  Int.toNat_of_nonneg h0]
            · by_cases h4 : n.toNat ≤ 0xFFFFFFFF
              · rw [if_neg h1, if_neg h2, if_neg h3, if_pos h4]
                simp only [List.cons_append]
                rw [unpackV_uint32Hdr,
                    readUint_bytes 4 _ _ (by norm_num; omega),
                    Int.toNat_of_nonneg h0]
              · rw [if_neg h1, if_neg h2, if_neg h3, if_neg h4]
                simp only [List.cons_append]
                rw [unpackV_uint64Hdr,
                    readUint_bytes 8 _ _ (by norm_num; omega),
                    Int.toNat_of_nonneg h0]
      · simp only [packRaw, if_neg h0]
        by_cases g1 : -32 ≤ n
        · rw [if_pos g1]
          simp only [List.cons_append, List.nil_append]
          rw [unpackV_negfix reg fuel _ _ (by omega) (by omega)]
          have heq : ((n + 256).toNat : Int) - 256 = n := by omega
          rw [heq]
        · by_cases g2 : -128 ≤ n
          · rw [if_neg g1, if_pos g2]
            simp only [List.cons_append, List.nil_append]
            rw [unpackV_int8Hdr]
            simp only [readSint, readBE, takeExact_one, beVal_singleton]
            have heq : sgn 1 (n + 256).toNat = n := by
              rw [sgn, if_neg (by norm_num; omega)]
              norm_num; omega
            rw [heq]
          · by_cases g3 : -(2^15) ≤ n
            · rw [if_neg g1, if_neg g2, if_pos g3]
              simp only [List.cons_append]
              rw [unpackV_int16Hdr, readSint_bytes 2 _ _ (by norm_num; omega)]
              have heq : sgn 2 (n + 2^16).toNat = n := by
                rw [sgn, if_neg (by norm_num; omega)]
                norm_num; omega
              rw [heq]
            · by_cases g4 : -(2^31) ≤ n
              · rw [if_neg g1, if_neg g2, if_neg g3, if_pos g4]
                simp only [List.cons_append]
                rw [unpackV_int32Hdr, readSint_bytes 4 _ _ (by norm_num; omega)]
                have heq : sgn 4 (n + 2^32).toNat = n := by
                  rw [sgn, if_neg (by norm_num; omega)]
                  norm_num; omega
                rw [heq]
              · rw [if_neg g1, if_neg g2, if_neg g3, if_neg g4]
                simp only [List.cons_append]
                rw [unpackV_int64Hdr, readSint_bytes 8 _ _ (by norm_num; omega)]
                have heq : sgn 8 (n + 2^64).toNat = n := by
                  rw [sgn, if_neg (by norm_num; omega)]
                  norm_num; omega
                rw [heq]
    | f32 bits =>
      simp only [validV, decide_eq_true_eq] at hv
      simp only [packRaw, List.cons_append]
      rw [unpackV_f32Hdr, readBE_append 4 bits extra (by norm_num; omega)]
    | f64 bits =>
      simp only [validV, decide_eq_true_eq] at hv
      simp only [packRaw, List.cons_append]
      rw [unpackV_f64Hdr, readBE_append 8 bits extra (by norm_num; omega)]
    | bin bs =>
      simp only [validV, Bool.and_eq_true, decide_eq_true_eq] at hv
      simp only [packRaw]
      by_cases h1 : bs.length ≤ 0xFF
      · rw [if_pos h1]
        simp only [List.cons_append, List.append_assoc]
        rw [unpackV_bin8Hdr, readBin_bytes 1 bs extra (by norm_num; omega)]
      · by_cases h2 : bs.length ≤ 0xFFFF
        · rw [if_neg h1, if_pos h2]
          simp only [List.cons_append, List.append_assoc]
          rw [unpackV_bin16Hdr, readBin_bytes 2 bs extra (by norm_num; omega)]
        · rw [if_neg h1, if_neg h2]
          simp only [List.cons_append, List.append_assoc]
          rw [unpackV_bin32Hdr, readBin_bytes 4 bs extra (by norm_num; omega)]
    | str bs =>
      simp only [validV, Bool.and_eq_true, decide_eq_true_eq] at hv
      simp only [packRaw]
      by_cases h1 : bs.length ≤ 31
      · rw [if_pos h1]
        simp only [List.cons_append]
        rw [unpackV_fixstr reg fuel _ _ (by omega) (by omega)]
        have hsub : 0xA0 + bs.length - 0xA0 = bs.length := by omega
        rw [hsub, readStr_bytes bs extra hv.2]
      · by_cases h2 : bs.length ≤ 0xFF
        · rw [if_neg h1, if_pos h2]
          simp only [List.cons_append, List.append_assoc]
          rw [unpackV_str8Hdr, readStrL_bytes 1 bs extra (by norm_num; omega) hv.2]
        · by_cases h3 : bs.length ≤ 0xFFFF
          · rw [if_neg h1, if_neg h2, if_pos h3]
            simp only [List.cons_append, List.append_assoc]
            rw [unpackV_str16Hdr, readStrL_bytes 2 bs extra (by norm_num; omega) hv.2]
          · rw [if_neg h1, if_neg h2, if_neg h3]
            simp only [List.cons_append, List.append_assoc]
            rw [unpackV_str32Hdr, readStrL_bytes 4 bs extra (by norm_num; omega) hv.2]
    | arr vs =>
      simp only [validV, Bool.and_eq_true, decide_eq_true_eq] at hv
      simp only [extFree] at hf
      simp only [packRaw] at hlen ⊢
      by_cases h1 : vs.length ≤ 15
      · rw [if_pos h1] at hlen ⊢
        simp only [List.length_cons] at hlen
        simp only [List.cons_append]
        rw [unpackV_fixarr reg fuel _ _ (by omega) (by omega)]
        have hsub : 0x90 + vs.length - 0x90 = vs.length := by omega
        rw [hsub, ihN vs hv.2 hf (by omega)]
      · by_cases h2 : vs.length ≤ 0xFFFF
        · rw [if_neg h1, if_pos h2] at hlen ⊢
          simp only [List.length_cons, List.length_append, beBytes_length] at hlen
          simp only [List.cons_append, List.append_assoc]
          rw [unpackV_arr16Hdr, readBE_append 2 _ _ (by norm_num; omega)]
          simp only [ihN vs hv.2 hf (by omega)]
        · rw [if_neg h1, if_neg h2] at hlen ⊢
          simp only [List.length_cons, List.length_append, beBytes_length] at hlen
          simp only [List.cons_append, List.append_assoc]
          rw [unpackV_arr32Hdr, readBE_append 4 _ _ (by norm_num; omega)]
          simp only [ihN vs hv.2 hf (by omega)]
    | map ps =>
      simp only [validV, Bool.and_eq_true, decide_eq_true_eq] at hv
      simp only [extFree] at hf
      simp only [packRaw] at hlen ⊢
      by_cases h1 : ps.length ≤ 15
      · rw [if_pos h1] at hlen ⊢
        simp only [List.length_cons] at hlen
        simp only [List.cons_append]
        rw [unpackV_fixmap reg fuel _ _ (by omega) (by omega)]
        have hsub : 0x80 + ps.length - 0x80 = ps.length := by omega
        rw [hsub, ihP ps hv.2 hf (by omega)]
      · by_cases h2 : ps.length ≤ 0xFFFF
        · rw [if_neg h1, if_pos h2] at hlen ⊢
          simp only [List.length_cons, List.length_append, beBytes_length] at hlen
          simp only [List.cons_append, List.append_assoc]
          rw [unpackV_map16Hdr, readBE_append 2 _ _ (by norm_num; omega)]
          simp only [ihP ps hv.2 hf (by omega)]
        · rw [if_neg h1, if_neg h2] at hlen ⊢
          simp only [List.length_cons, List.length_append, beBytes_length] at hlen
          simp only [List.cons_append, List.append_assoc]
          rw [unpackV_map32Hdr, readBE_append 4 _ _ (by norm_num; omega)]
          simp only [ihP ps hv.2 hf (by omega)]
    | ext c d => simp [extFree] at hf

/-- Top-level round trip: decoding the canonical encoding of a legal,
extension-free Value returns that Value with every byte consumed. -/
theorem unpack_packRaw (reg : Registry) (v : Value)
    (hv : validV v = true) (hf : extFree v = true) :
    unpack reg (packRaw v) = .ok (v, (packRaw v).length) := by
  rw [unpack]
  have h := unpackV_packRaw reg ((packRaw v).length + 1) v hv hf (by omega) []
  rw [List.append_nil] at h
  rw [h]
  simp

/-- The integer format classes of the wire table, with the integers each can
represent and its total encoded size in bytes. -/
inductive IntClass where
  | posFixnum | negFixnum | u8 | u16 | u32 | u64 | i8 | i16 | i32 | i64

/-- Which integers a format class can represent (§4.1 wire table). -/
def IntClass.canRepr : IntClass → Int → Prop
  | .posFixnum, n => 0 ≤ n ∧ n ≤ 127
  | .negFixnum, n => -32 ≤ n ∧ n ≤ -1
  | .u8, n => 0 ≤ n ∧ n < 2 ^ 8
  | .u16, n => 0 ≤ n ∧ n < 2 ^ 16
  | .u32, n => 0 ≤ n ∧ n < 2 ^ 32
  | .u64, n => 0 ≤ n ∧ n < 2 ^ 64
  | .i8, n => -(2 ^ 7) ≤ n ∧ n < 2 ^ 7
  | .i16, n => -(2 ^ 15) ≤ n ∧ n < 2 ^ 15
  | .i32, n => -(2 ^ 31) ≤ n ∧ n < 2 ^ 31
  | .i64, n => -(2 ^ 63) ≤ n ∧ n < 2 ^ 63

/-- Total encoded size (header plus payload) of each integer format class. -/
def IntClass.size : IntClass → Nat
  | .posFixnum => 1
  | .negFixnum => 1
  | .u8 => 2
  | .u16 => 3
  | .u32 => 5
  | .u64 => 9
  | .i8 => 2
  | .i16 => 3
  | .i32 => 5
  | .i64 => 9

theorem packRaw_int_minimal (n : Int) (cls : IntClass) (h : cls.canRepr n) :
    (packRaw (.int n)).length ≤ cls.size := by
  cases cls <;>
    (obtain ⟨h1, h2⟩ := h
     simp only [IntClass.size]
     simp only [packRaw]
     split_ifs <;>
       simp only [List.length_cons, List.length_nil, List.length_append,
                  beBytes_length] <;>
       omega)

theorem packRaw_str_minimal (bs : List Nat) :
    (bs.length ≤ 31 → (packRaw (.str bs)).length ≤ 1 + bs.length) ∧
    (bs.length ≤ 0xFF → (packRaw (.str bs)).length ≤ 2 + bs.length) ∧
    (bs.length ≤ 0xFFFF → (packRaw (.str bs)).length ≤ 3 + bs.length) ∧
    (packRaw (.str bs)).length ≤ 5 + bs.length := by
  simp only [packRaw]
  split_ifs <;>
    simp only [List.length_cons, List.length_nil, List.length_append,
               beBytes_length] <;>
    omega

theorem packRaw_bin_minimal (bs : List Nat) :
    (bs.length ≤ 0xFF → (packRaw (.bin bs)).length ≤ 2 + bs.length) ∧
    (bs.length ≤ 0xFFFF → (packRaw (.bin bs)).length ≤ 3 + bs.length) ∧
    (packRaw (.bin bs)).length ≤ 5 + bs.length := by
  simp only [packRaw]
  split_ifs <;>
    simp only [List.length_cons, List.length_nil, List.length_append,
               beBytes_length] <;>
    omega

theorem packRaw_arr_minimal (vs : List Value) :
    (vs.length ≤ 15 → (packRaw (.arr vs)).length ≤ 1 + (packList vs).length) ∧
    (vs.length ≤ 0xFFFF → (packRaw (.arr vs)).length ≤ 3 + (packList vs).length) ∧
    (packRaw (.arr vs)).length ≤ 5 + (packList vs).length := by
  simp only [packRaw]
  split_ifs <;>
    simp only [List.length_cons, List.length_nil, List.length_append,
               beBytes_length] <;>
    omega

theorem packRaw_map_minimal (ps : List (Value × Value)) :
    (ps.length ≤ 15 → (packRaw (.map ps)).length ≤ 1 + (packPairs ps).length) ∧
    (ps.length ≤ 0xFFFF → (packRaw (.map ps)).length ≤ 3 + (packPairs ps).length) ∧
    (packRaw (.map ps)).length ≤ 5 + (packPairs ps).length := by
  simp only [packRaw]
  split_ifs <;>
    simp only [List.length_cons, List.length_nil, List.length_append,
               beBytes_length] <;>
    omega

/-- With no registry configured, a fixext body never decodes to a value: it
fails with Truncated (missing bytes) or UnknownExtensionCode. -/
theorem readFixExt_absent (len : Nat) (bs : List Nat) :
    readFixExt .absent len bs = .error .truncated ∨
    readFixExt .absent len bs = .error .unknownExtensionCode := by
  cases bs with
  | nil => left; rfl
  | cons code r =>
    cases h : takeExact len r with
    | none => left; simp [readFixExt, h]
    | some p =>
      obtain ⟨d, r2⟩ := p
      right; simp [readFixExt, h, Registry.resolveExt]

/-- With no registry configured, an ext8/16/32 body never decodes to a
value. -/
theorem readExtL_absent (w : Nat) (bs : List Nat) :
    readExtL .absent w bs = .error .truncated ∨
    readExtL .absent w bs = .error .unknownExtensionCode := by
  cases h : readBE w bs with
  | none => left; simp [readExtL, h]
  | some p =>
    obtain ⟨len, r⟩ := p
    have := readFixExt_absent len r
    rcases this with h2 | h2
    · left; simp [readExtL, h, h2]
    · right; simp [readExtL, h, h2]

/-- The header bytes that introduce an extension value: ext8/16/32 and
fixext1/2/4/8/16. -/
def extTag (b : Nat) : Prop :=
  b = 0xC7 ∨ b = 0xC8 ∨ b = 0xC9 ∨ (0xD4 ≤ b ∧ b ≤ 0xD8)

/-- With no registry, a buffer opening with an extension tag never decodes
successfully. -/
theorem unpackV_extTag_absent (fuel b : Nat) (rest : List Nat) (h : extTag b) :
    unpackV .absent (fuel + 1) (b :: rest) = .error .truncated ∨
    unpackV .absent (fuel + 1) (b :: rest) = .error .unknownExtensionCode := by
  rcases h with h | h | h | ⟨h1, h2⟩
  · subst h; rw [unpackV_ext8Hdr]; exact readExtL_absent 1 rest
  · subst h; rw [unpackV_ext16Hdr]; exact readExtL_absent 2 rest
  · subst h; rw [unpackV_ext32Hdr]; exact readExtL_absent 4 rest
  · interval_cases b
    · rw [unpackV_fixext1Hdr]; exact readFixExt_absent 1 rest
    · rw [unpackV_fixext2Hdr]; exact readFixExt_absent 2 rest
    · rw [unpackV_fixext4Hdr]; exact readFixExt_absent 4 rest
    · rw [unpackV_fixext8Hdr]; exact readFixExt_absent 8 rest
    · rw [unpackV_fixext16Hdr]; exact readFixExt_absent 16 rest

/-- With no registry, decoding the complete wire form of any extension value
(whatever its payload length class) fails with UnknownExtensionCode. -/
theorem unpack_ext_absent (code : Nat) (data rest : List Nat)
    (hd : data.length < 2 ^ 32) :
    unpack .absent (packRaw (.ext code data) ++ rest) = .error .unknownExtensionCode := by
  rw [unpack]
  by_cases h1 : data.length = 1
  · simp only [packRaw, if_pos h1, List.cons_append, List.nil_append,
               List.append_assoc]
    rw [unpackV_fixext1Hdr]
    simp [readFixExt, takeExact_append_of_length data rest h1, Registry.resolveExt]
  · by_cases h2 : data.length = 2
    · simp only [packRaw, if_neg h1, if_pos h2, List.cons_append, List.nil_append,
                 List.append_assoc]
      rw [unpackV_fixext2Hdr]
      simp [readFixExt, takeExact_append_of_length data rest h2, Registry.resolveExt]
    · by_cases h4 : data.length = 4
      · simp only [packRaw, if_neg h1, if_neg h2, if_pos h4, List.cons_append,
                   List.nil_append, List.append_assoc]
        rw [unpackV_fixext4Hdr]
        simp [readFixExt, takeExact_append_of_length data rest h4, Registry.resolveExt]
      · by_cases h8 : data.length = 8
        · simp only [packRaw, if_neg h1, if_neg h2, if_neg h4, if_pos h8,
                     List.cons_append, List.nil_append, List.append_assoc]
          rw [unpackV_fixext8Hdr]
          simp [readFixExt, takeExact_append_of_length data rest h8,
                Registry.resolveExt]
        · by_cases h16 : data.length = 16
          · simp only [packRaw, if_neg h1, if_neg h2, if_neg h4, if_neg h8,
                       if_pos h16, List.cons_append, List.nil_append,
                       List.append_assoc]
            rw [unpackV_fixext16Hdr]
            simp [readFixExt, takeExact_append_of_length data rest h16,
                  Registry.resolveExt]
          · by_cases hb1 : data.length ≤ 0xFF
            · simp only [packRaw, if_neg h1, if_neg h2, if_neg h4, if_neg h8,
                         if_neg h16, if_pos hb1, List.cons_append, List.nil_append,
                         List.append_assoc]
              rw [unpackV_ext8Hdr]
              simp [readExtL,
                    readBE_append 1 data.length (code :: (data ++ rest))
                      (by norm_num; omega),
                    readFixExt, takeExact_append data rest, Registry.resolveExt]
            · by_cases hb2 : data.length ≤ 0xFFFF
              · simp only [packRaw, if_neg h1, if_neg h2, if_neg h4, if_neg h8,
                           if_neg h16, if_neg hb1, if_pos hb2, List.cons_append,
                           List.nil_append, List.append_assoc]
                rw [unpackV_ext16Hdr]
                simp [readExtL,
                      readBE_append 2 data.length (code :: (data ++ rest))
                        (by norm_num; omega),
                      readFixExt, takeExact_append data rest, Registry.resolveExt]
              · simp only [packRaw, if_neg h1, if_neg h2, if_neg h4, if_neg h8,
                           if_neg h16, if_neg hb1, if_neg hb2, List.cons_append,
                           List.nil_append, List.append_assoc]
                rw [unpackV_ext32Hdr]
                simp [readExtL,
                      readBE_append 4 data.length (code :: (data ++ rest))
                        (by norm_num; omega),
                      readFixExt, takeExact_append data rest, Registry.resolveExt]

/-- Validity of a well-formed message array built from valid components. -/
theorem validV_msg4 (t : Nat) (id0 : Nat) (a b : Value) (ht : t < 3)
    (hid : id0 < 2 ^ 32) (hva : validV a = true) (hvb : validV b = true) :
    validV (.arr [.int t, .int id0, a, b]) = true := by
  norm_num [validV, validList, hva, hvb]
  refine ⟨⟨by omega, by omega⟩, by omega, by omega⟩

/-- Extension-freeness of a message array with extension-free components. -/
theorem extFree_msg4 (t : Nat) (id0 : Nat) (a b : Value)
    (hfa : extFree a = true) (hfb : extFree b = true) :
    extFree (.arr [.int t, .int id0, a, b]) = true := by
  simp [extFree, extFreeList, hfa, hfb]

/-- Receiving an encoded Request yields the method, params and advertised id,
leaving the session state untouched. -/
theorem receive_request (s : Session δ) (id0 : Nat) (method params : Value)
    (hid : id0 < 2 ^ 32) (hms : method.isStr = true) (hpa : params.isArr = true)
    (hvm : validV method = true) (hfm : extFree method = true)
    (hvp : validV params = true) (hfp : extFree params = true) :
    s.receive (packRaw (.arr [.int 0, .int id0, method, params])) =
      .ok (((packRaw (.arr [.int 0, .int id0, method, params])).length,
            .request method params id0), s) := by
  have hB := unpack_packRaw .absent (.arr [.int 0, .int id0, method, params])
    (validV_msg4 0 id0 method params (by norm_num) hid hvm hvp)
    (extFree_msg4 0 id0 method params hfm hfp)
  simp only [Session.receive, hB]
  rw [if_pos (show (0 : Int) ≤ (id0 : Int) ∧ (id0 : Int) < 2 ^ 32 ∧
        method.isStr = true ∧ params.isArr = true from
        ⟨by positivity, by exact_mod_cast hid, hms, hpa⟩)]
  simp

/-- Receiving an encoded Response whose id is pending returns the opaque
datum and removes the pending entry. -/
theorem receive_response_hit (s : Session δ) (id0 : Nat) (e r : Value) (d : δ)
    (hid : id0 < 2 ^ 32)
    (hve : validV e = true) (hfe : extFree e = true)
    (hvr : validV r = true) (hfr : extFree r = true)
    (hlook : s.pending.lookup id0 = some d) :
    s.receive (packRaw (.arr [.int 1, .int id0, e, r])) =
      .ok (((packRaw (.arr [.int 1, .int id0, e, r])).length, .response e r d),
           { s with pending := s.pending.eraseP (fun p => p.1 == id0) }) := by
  have hB := unpack_packRaw .absent (.arr [.int 1, .int id0, e, r])
    (validV_msg4 1 id0 e r (by norm_num) hid hve hvr)
    (extFree_msg4 1 id0 e r hfe hfr)
  simp only [Session.receive, hB]
  rw [if_neg (show ¬((1 : Int) = 0) by norm_num)]
  rw [if_pos (show (0 : Int) ≤ (id0 : Int) ∧ (id0 : Int) < 2 ^ 32 from
        ⟨by positivity, by exact_mod_cast hid⟩)]
  simp [hlook]

/-- Receiving an encoded Response whose id is not pending fails with
UnknownResponseId. -/
theorem receive_response_miss (s : Session δ) (id0 : Nat) (e r : Value)
    (hid : id0 < 2 ^ 32)
    (hve : validV e = true) (hfe : extFree e = true)
    (hvr : validV r = true) (hfr : extFree r = true)
    (hlook : s.pending.lookup id0 = none) :
    s.receive (packRaw (.arr [.int 1, .int id0, e, r])) = .error .unknownResponseId := by
  have hB := unpack_packRaw .absent (.arr [.int 1, .int id0, e, r])
    (validV_msg4 1 id0 e r (by norm_num) hid hve hvr)
    (extFree_msg4 1 id0 e r hfe hfr)
  simp only [Session.receive, hB]
  rw [if_neg (show ¬((1 : Int) = 0) by norm_num)]
  rw [if_pos (show (0 : Int) ≤ (id0 : Int) ∧ (id0 : Int) < 2 ^ 32 from
        ⟨by positivity, by exact_mod_cast hid⟩)]
  simp [hlook]

/-! Claim theorems. -/

/-- Claim C1: for every legal Value representable without extension types,
encoding succeeds with the canonical bytes, and decoding those bytes (under
any registry) returns exactly the original value together with a consumed
count equal to the full length of the encoding; hence re-packing the
unpacked value yields the same bytes and unpacking them again yields the
original value. -/
theorem claim1_roundtrip (reg reg2 : Registry) (v : Value)
    (hv : validV v = true) (hf : extFree v = true) :
    packE reg v = .ok (packRaw v) ∧
    unpack reg2 (packRaw v) = .ok (v, (packRaw v).length) := by
  exact ⟨by rw [packE, if_pos hv], unpack_packRaw reg2 v hv hf⟩

/-- Witness for C1 at a concrete nested value. -/
theorem claim1_roundtrip_witness :
    validV (.arr [.nil, .int 1, .str [104, 105], .map [(.int 0, .bool true)]]) = true ∧
    extFree (.arr [.nil, .int 1, .str [104, 105], .map [(.int 0, .bool true)]]) = true ∧
    (packE .absent (.arr [.nil, .int 1, .str [104, 105], .map [(.int 0, .bool true)]]) =
       .ok (packRaw (.arr [.nil, .int 1, .str [104, 105], .map [(.int 0, .bool true)]])) ∧
     unpack .absent (packRaw (.arr [.nil, .int 1, .str [104, 105], .map [(.int 0, .bool true)]])) =
       .ok (.arr [.nil, .int 1, .str [104, 105], .map [(.int 0, .bool true)]],
            (packRaw (.arr [.nil, .int 1, .str [104, 105], .map [(.int 0, .bool true)]])).length)) :=
  ⟨by decide, by decide,
   claim1_roundtrip .absent .absent _ (by decide) (by decide)⟩

/-- Claim C2: the encoder picks the shortest representation — for every
integer and every format class able to represent it, the canonical encoding
is no longer than that class's size (n = 100 encodes in 1 byte); for
strings, binaries, arrays and maps every fitting size class bounds the
chosen encoding; and for the deliberately non-minimal reference encoding
CC 05 (5 as uint8), decoding yields 5 but re-packing 5 gives the minimal
1-byte form, not the original bytes. -/
theorem claim2_minimality :
    (∀ (n : Int) (cls : IntClass), cls.canRepr n →
       (packRaw (.int n)).length ≤ cls.size) ∧
    (packRaw (.int 100)).length = 1 ∧
    (∀ bs : List Nat,
       (bs.length ≤ 31 → (packRaw (.str bs)).length ≤ 1 + bs.length) ∧
       (bs.length ≤ 0xFF → (packRaw (.str bs)).length ≤ 2 + bs.length) ∧
       (bs.length ≤ 0xFFFF → (packRaw (.str bs)).length ≤ 3 + bs.length) ∧
       (packRaw (.str bs)).length ≤ 5 + bs.length) ∧
    (∀ bs : List Nat,
       (bs.length ≤ 0xFF → (packRaw (.bin bs)).length ≤ 2 + bs.length) ∧
       (bs.length ≤ 0xFFFF → (packRaw (.bin bs)).length ≤ 3 + bs.length) ∧
       (packRaw (.bin bs)).length ≤ 5 + bs.length) ∧
    (∀ vs : List Value,
       (vs.length ≤ 15 → (packRaw (.arr vs)).length ≤ 1 + (packList vs).length) ∧
       (vs.length ≤ 0xFFFF → (packRaw (.arr vs)).length ≤ 3 + (packList vs).length) ∧
       (packRaw (.arr vs)).length ≤ 5 + (packList vs).length) ∧
    (∀ ps : List (Value × Value),
       (ps.length ≤ 15 → (packRaw (.map ps)).length ≤ 1 + (packPairs ps).length) ∧
       (ps.length ≤ 0xFFFF → (packRaw (.map ps)).length ≤ 3 + (packPairs ps).length) ∧
       (packRaw (.map ps)).length ≤ 5 + (packPairs ps).length) ∧
    unpack .absent [0xCC, 0x05] = .ok (.int 5, 2) ∧
    packRaw (.int 5) = [0x05] ∧ packRaw (.int 5) ≠ [0xCC, 0x05] := by
  refine ⟨packRaw_int_minimal, by decide, packRaw_str_minimal, packRaw_bin_minimal,
          packRaw_arr_minimal, packRaw_map_minimal, ?_, by decide, by decide⟩
  simp [unpack, unpackV, readUint, readBE, takeExact, beVal]

/-- Witness for C2: 100 is representable by uint8 (2 bytes) yet encodes in
1 byte. -/
theorem claim2_minimality_witness :
    IntClass.canRepr .u8 100 ∧ (packRaw (.int 100)).length ≤ IntClass.size .u8 :=
  ⟨by constructor <;> norm_num,
   claim2_minimality.1 100 .u8 (by constructor <;> norm_num)⟩

/-- Claim C3: decoding a buffer whose first byte is the reserved tag 0xC1,
whatever follows, fails immediately with ReservedTag — an error result, so
no bytes-consumed count is reported and nothing waits for further input. -/
theorem claim3_reservedTag (reg : Registry) (rest : List Nat) :
    unpack reg (0xC1 :: rest) = .error .reservedTag := by
  rw [unpack]
  rw [show (0xC1 :: rest).length + 1 = (rest.length + 1) + 1 by simp]
  rw [unpackV_reservedHdr]

/-- Claim C5: with no extension registry configured, a buffer opening with
an extension tag never decodes to a value (first conjunct), and the complete
wire form of any extension value fails with exactly UnknownExtensionCode
(second conjunct). -/
theorem claim5_unknown_extension :
    (∀ (hdr : Nat) (rest : List Nat) (v : Value) (n : Nat), extTag hdr →
       unpack .absent (hdr :: rest) ≠ .ok (v, n)) ∧
    (∀ (code : Nat) (data rest : List Nat), data.length < 2 ^ 32 →
       unpack .absent (packRaw (.ext code data) ++ rest) =
         .error .unknownExtensionCode) := by
  constructor
  · intro hdr rest v n h
    rw [unpack]
    rw [show (hdr :: rest).length + 1 = (rest.length + 1) + 1 by simp]
    rcases unpackV_extTag_absent (rest.length + 1) hdr rest h with h2 | h2 <;>
      simp [h2]
  · exact unpack_ext_absent

/-- Witness for C5 at the fixext1 buffer d4 01 01. -/
theorem claim5_unknown_extension_witness :
    extTag 0xD4 ∧ ([0x01] : List Nat).length < 2 ^ 32 ∧
    (unpack .absent (0xD4 :: [0x01, 0x01]) ≠ .ok (.nil, 3)) ∧
    unpack .absent (packRaw (.ext 0x01 [0x01]) ++ []) =
      .error .unknownExtensionCode :=
  ⟨by norm_num [extTag], by norm_num,
   claim5_unknown_extension.1 0xD4 [0x01, 0x01] .nil 3 (by norm_num [extTag]),
   claim5_unknown_extension.2 0x01 [0x01] [] (by norm_num)⟩

/-- Claim C4: session correlation round trip. A fresh session (any counter
value c) sends request(method, params, data), producing bytes B; a peer
session receives B as ('request', method, params, id) with id the allocated
one and len B consumed; the peer's reply for that id produces bytes C; the
requesting session receives C as ('response', nil, payload, data) with the
original opaque datum, len C consumed, and the pending entry removed, so a
second receive of C fails with UnknownResponseId. -/
theorem claim4_session_roundtrip (δ δ2 : Type) (c : Nat) (d : δ)
    (method params payload : Value) (P : Session δ2)
    (hms : method.isStr = true) (hpa : params.isArr = true)
    (hvm : validV method = true) (hfm : extFree method = true)
    (hvp : validV params = true) (hfp : extFree params = true)
    (hvr : validV payload = true) (hfr : extFree payload = true) :
    P.receive ((Session.request (⟨[], c⟩ : Session δ) method params d).1) =
      .ok ((((Session.request (⟨[], c⟩ : Session δ) method params d).1).length,
            .request method params (c % 2 ^ 32)), P) ∧
    Session.receive ((Session.request (⟨[], c⟩ : Session δ) method params d).2)
        (P.reply (c % 2 ^ 32) payload false) =
      .ok (((P.reply (c % 2 ^ 32) payload false).length, .response .nil payload d),
           (⟨[], (c % 2 ^ 32 + 1) % 2 ^ 32⟩ : Session δ)) ∧
    Session.receive (⟨[], (c % 2 ^ 32 + 1) % 2 ^ 32⟩ : Session δ)
        (P.reply (c % 2 ^ 32) payload false) = .error .unknownResponseId := by
  have hid : c % 2 ^ 32 < 2 ^ 32 := Nat.mod_lt c (by norm_num)
  have hfresh : (⟨[], c⟩ : Session δ).freshId = c % 2 ^ 32 := by
    simp [Session.freshId, freshIdAux]
  have hreq1 : (Session.request (⟨[], c⟩ : Session δ) method params d).1 =
      packRaw (.arr [.int 0, .int (c % 2 ^ 32 : Nat), method, params]) := by
    simp only [Session.request, hfresh]
  have hreq2 : (Session.request (⟨[], c⟩ : Session δ) method params d).2 =
      ⟨[(c % 2 ^ 32, d)], (c % 2 ^ 32 + 1) % 2 ^ 32⟩ := by
    simp only [Session.request, hfresh]
  have hrep : P.reply (c % 2 ^ 32) payload false =
      packRaw (.arr [.int 1, .int (c % 2 ^ 32 : Nat), .nil, payload]) := by
    simp only [Session.reply, Bool.false_eq_true, if_false]
  refine ⟨?_, ?_, ?_⟩
  · rw [hreq1]
    exact receive_request P _ method params hid hms hpa hvm hfm hvp hfp
  · rw [hreq2, hrep]
    have hr := receive_response_hit
      (⟨[(c % 2 ^ 32, d)], (c % 2 ^ 32 + 1) % 2 ^ 32⟩ : Session δ)
      (c % 2 ^ 32) .nil payload d hid (by simp [validV]) (by simp [extFree])
      hvr hfr (by simp [List.lookup])
    rw [hr]
    simp [List.eraseP]
  · rw [hrep]
    exact receive_response_miss _ _ .nil payload hid (by simp [validV])
      (by simp [extFree]) hvr hfr (by simp [List.lookup])

/-- Witness for C4 at method "f" (0x66), params [], payload false, opaque
datum 7, counter 0, peer a fresh unit session. -/
theorem claim4_session_roundtrip_witness :
    (Value.str [0x66]).isStr = true ∧ (Value.arr []).isArr = true ∧
    validV (.str [0x66]) = true ∧ extFree (.str [0x66]) = true ∧
    validV (.arr []) = true ∧ extFree (.arr []) = true ∧
    validV (.bool false) = true ∧ extFree (.bool false) = true ∧
    (Session.receive (⟨[], 0⟩ : Session PUnit)
        ((Session.request (⟨[], 0⟩ : Session Nat) (.str [0x66]) (.arr []) 7).1) =
      .ok ((((Session.request (⟨[], 0⟩ : Session Nat) (.str [0x66]) (.arr []) 7).1).length,
            .request (.str [0x66]) (.arr []) (0 % 2 ^ 32)), (⟨[], 0⟩ : Session PUnit)) ∧
      Session.receive ((Session.request (⟨[], 0⟩ : Session Nat) (.str [0x66]) (.arr []) 7).2)
          (Session.reply (⟨[], 0⟩ : Session PUnit) (0 % 2 ^ 32) (.bool false) false) =
        .ok (((Session.reply (⟨[], 0⟩ : Session PUnit) (0 % 2 ^ 32) (.bool false) false).length,
              .response .nil (.bool false) 7),
             (⟨[], (0 % 2 ^ 32 + 1) % 2 ^ 32⟩ : Session Nat)) ∧
      Session.receive (⟨[], (0 % 2 ^ 32 + 1) % 2 ^ 32⟩ : Session Nat)
          (Session.reply (⟨[], 0⟩ : Session PUnit) (0 % 2 ^ 32) (.bool false) false) =
        .error .unknownResponseId) :=
  ⟨rfl, rfl, by decide, by decide, by decide, by decide, by decide, by decide,
   claim4_session_roundtrip Nat PUnit 0 7 (.str [0x66]) (.arr []) (.bool false)
     (⟨[], 0⟩ : Session PUnit) rfl rfl (by decide) (by decide) (by decide)
     (by decide) (by decide) (by decide)⟩

/-- Claim C6: encoding is total on legal Values whatever the registry shape
(absent, callable, dict — possibly empty — or list), is registry-independent,
and produces the documented literals: nil ↦ C0, [nil, nil] ↦ 92 C0 C0,
1 ↦ 01. -/
theorem claim6_encode_total :
    (∀ (reg : Registry) (v : Value), validV v = true → packE reg v = .ok (packRaw v)) ∧
    (∀ reg : Registry, packE reg .nil = .ok [0xC0]) ∧
    (∀ reg : Registry, packE reg (.arr [.nil, .nil]) = .ok [0x92, 0xC0, 0xC0]) ∧
    (∀ reg : Registry, packE reg (.int 1) = .ok [0x01]) ∧
    (∀ (reg reg2 : Registry) (v : Value), packE reg v = packE reg2 v) := by
  refine ⟨fun reg v hv => by rw [packE, if_pos hv], fun reg => rfl, fun reg => rfl,
          fun reg => rfl, fun reg reg2 v => rfl⟩

/-- Witness for C6: packing nil with an empty dict registry succeeds. -/
theorem claim6_encode_total_witness :
    validV .nil = true ∧ packE (.dict []) .nil = .ok (packRaw .nil) :=
  ⟨rfl, claim6_encode_total.1 (.dict []) .nil rfl⟩

/-- Claim C9: under a finite-mapping registry that lacks the extension type
code, decoding a fixext1 value does not raise: it returns nil with all three
bytes consumed — concretely, unpack of d4 01 01 with an empty dict registry
is (nil, 3), and generally so for any dict registry missing the code. -/
theorem claim9_dict_miss_nil :
    unpack (.dict []) [0xD4, 0x01, 0x01] = .ok (.nil, 3) ∧
    (∀ (entries : List (Nat × (List Nat → Value))) (code d : Nat) (rest : List Nat),
       entries.lookup code = none →
       unpack (.dict entries) (0xD4 :: code :: d :: rest) = .ok (.nil, 3)) := by
  have hgen : ∀ (entries : List (Nat × (List Nat → Value))) (code d : Nat)
      (rest : List Nat), entries.lookup code = none →
      unpack (.dict entries) (0xD4 :: code :: d :: rest) = .ok (.nil, 3) := by
    intro entries code d rest hlook
    rw [unpack]
    rw [show (0xD4 :: code :: d :: rest).length + 1 = (rest.length + 3) + 1 by simp]
    rw [unpackV_fixext1Hdr]
    simp [readFixExt, takeExact, Registry.resolveExt, hlook]
    omega
  exact ⟨hgen [] 0x01 0x01 [] rfl, hgen⟩

/-- Witness for C9 at the empty dict registry. -/
theorem claim9_dict_miss_nil_witness :
    ([] : List (Nat × (List Nat → Value))).lookup 0x01 = none ∧
    unpack (.dict []) (0xD4 :: 0x01 :: 0x01 :: []) = .ok (.nil, 3) :=
  ⟨rfl, claim9_dict_miss_nil.2 [] 0x01 0x01 [] rfl⟩

/-- The property claimed of a Response's error/result pair: exactly one of
the two is non-nil. -/
def exactlyOneNonNil (e r : Value) : Prop :=
  (e ≠ .nil ∧ r = .nil) ∨ (e = .nil ∧ r ≠ .nil)

/-- Claim C7 counterexample: the generator's Response with has_error drawn
true and the drawn error value nil (both drawn from the full value strategy,
which includes nil) is (1, 0, nil, nil) — both error and result slots nil,
so not exactly one non-nil. -/
theorem claim7_counterexample :
    msgResponseContents true (.int 0) .nil .nil = [.int 1, .int 0, .nil, .nil] ∧
    ¬ exactlyOneNonNil Value.nil Value.nil := by
  constructor
  · rfl
  · intro h
    rcases h with ⟨h1, _⟩ | ⟨_, h2⟩
    · exact h1 rfl
    · exact h2 rfl

/-- Claim C7 (amended): a generated or replied Response never has BOTH error
and result non-nil — the slot not selected by has_error/isError is always
nil — but both may be nil, since the drawn payload may itself be nil. -/
theorem claim7_amended :
    (∀ (hasError : Bool) (msgid err res : Value), ∃ e r,
       msgResponseContents hasError msgid err res = [.int 1, msgid, e, r] ∧
       (e = .nil ∨ r = .nil)) ∧
    (∀ (id : Nat) (payload : Value) (isError : Bool), ∃ e r,
       Session.reply (δ := PUnit) ⟨[], 0⟩ id payload isError =
         packRaw (.arr [.int 1, .int id, e, r]) ∧ (e = .nil ∨ r = .nil)) := by
  constructor
  · intro hasError msgid err res
    cases hasError with
    | false => exact ⟨.nil, res, rfl, Or.inl rfl⟩
    | true => exact ⟨err, .nil, rfl, Or.inr rfl⟩
  · intro id payload isError
    cases isError with
    | false => exact ⟨.nil, payload, rfl, Or.inl rfl⟩
    | true => exact ⟨payload, .nil, rfl, Or.inr rfl⟩

/-- Claim C8: under the test-equality relation of the nan sentinel, every
NaN bit pattern of the matching width compares equal (so any two NaNs are
equated through it), every non-NaN float compares unequal, and against a
non-float operand the comparison is NotImplemented rather than an answer. -/
theorem claim8_nan_equality (b32 b64 : Nat) :
    (isNaN32 b32 = true → nanEq (.f32 b32) = some true ∧ nanNe (.f32 b32) = some false) ∧
    (isNaN64 b64 = true → nanEq (.f64 b64) = some true ∧ nanNe (.f64 b64) = some false) ∧
    (isNaN32 b32 = false → nanEq (.f32 b32) = some false ∧ nanNe (.f32 b32) = some true) ∧
    (isNaN64 b64 = false → nanEq (.f64 b64) = some false ∧ nanNe (.f64 b64) = some true) ∧
    nanEq .nonFloat = none ∧ nanNe .nonFloat = none := by
  refine ⟨fun h => ?_, fun h => ?_, fun h => ?_, fun h => ?_, rfl, rfl⟩ <;>
    simp [nanEq, nanNe, h]

/-- Witness for C8: the quiet NaN patterns 7FC00000 and 7FF8000000000000 are
NaNs and compare equal to the sentinel; 0 is not and compares unequal. -/
theorem claim8_nan_equality_witness :
    isNaN32 0x7FC00000 = true ∧ isNaN64 0x7FF8000000000000 = true ∧
    isNaN32 0 = false ∧
    (nanEq (.f32 0x7FC00000) = some true ∧ nanNe (.f32 0x7FC00000) = some false) ∧
    (nanEq (.f64 0x7FF8000000000000) = some true ∧
     nanNe (.f64 0x7FF8000000000000) = some false) ∧
    (nanEq (.f32 0) = some false ∧ nanNe (.f32 0) = some true) :=
  ⟨by decide, by decide, by decide,
   (claim8_nan_equality 0x7FC00000 0x7FF8000000000000).1 (by decide),
   (claim8_nan_equality 0x7FC00000 0x7FF8000000000000).2.1 (by decide),
   (claim8_nan_equality 0 0).2.2.1 (by decide)⟩

/-- Claim C10: on every format string whose directives are only %c and %s
with a positionally matching argument list, the manual scanning fallback of
bfmt computes exactly the bytes of native interpolation. -/
theorem claim10_bfmt_equiv (B : List Nat) (args : List BArg)
    (h : BFmtMatch B args) : bfmtManual B args = bfmtNative B args := by
  induction h with
  | nil => rfl
  | c hb _ ih => simp [bfmtManual, bfmtNative, asC, hb, ih]
  | s _ ih => simp [bfmtManual, bfmtNative, asS, ih]
  | @lit rest args x hx hm ih =>
    cases rest with
    | nil =>
      cases hm with
      | nil => simp [bfmtManual, bfmtNative, hx]
    | cons spec rest2 => simp [bfmtManual, bfmtNative, hx, ih]

/-- Witness for C10 on the format "A%c%sZ" with arguments (66, "CD"). -/
theorem claim10_bfmt_equiv_witness :
    BFmtMatch [65, 37, 99, 37, 115, 90] [.c 66, .s [67, 68]] ∧
    bfmtManual [65, 37, 99, 37, 115, 90] [.c 66, .s [67, 68]] =
      bfmtNative [65, 37, 99, 37, 115, 90] [.c 66, .s [67, 68]] := by
  have h : BFmtMatch [65, 37, 99, 37, 115, 90] [.c 66, .s [67, 68]] :=
    .lit (by omega) (.c (by omega) (.s (.lit (by omega) .nil)))
  exact ⟨h, claim10_bfmt_equiv _ _ h⟩

end Mpack
